import Mathlib

/-!
Verification of the MangaBot plugin layer (three site plugins: MangaFire,
MangaKatana, Atsumaru) against its natural-language specification.

The embedding below translates the plugin code into Lean:
pure helpers become Lean functions, Python exceptions become `Except PyErr`,
fetched/parsed upstream payloads become explicit parameters, and the PIL
crop/paste loop of the image descrambler becomes a fold of rectangle copies
over a pixel function.
-/

/-! ## Common helpers: Python character classes and string operations -/

/-- ASCII whitespace, as matched by the regex class of blank characters and
by Python's default strip.  (Unicode whitespace beyond ASCII is not modelled.) -/
def isSpaceChar (c : Char) : Bool :=
  c == ' ' || c == '\t' || c == '\n' || c == '\r' || c == Char.ofNat 11 || c == Char.ofNat 12

/-- ASCII word character, the regex word class (letters, digits, underscore).
Unicode letters beyond ASCII are not modelled. -/
def isWordChar (c : Char) : Bool := c.isAlphanum || c == '_'

/-- The single-quote character (written via its code point). -/
def sqc : Char := Char.ofNat 39

/-- A one-character string holding a single quote. -/
def sqs : String := String.mk [sqc]

/-- Match a literal pattern at the head of the input; on success return the
rest of the input after the pattern. -/
def dropLiteral : List Char → List Char → Option (List Char)
  | [], s => Option.some s
  | _ :: _, [] => Option.none
  | p :: ps, c :: cs => if p == c then dropLiteral ps cs else Option.none

/-- Python `str.strip()`: remove whitespace from both ends. -/
def stripChars (s : List Char) : List Char :=
  ((s.dropWhile isSpaceChar).reverse.dropWhile isSpaceChar).reverse

/-- Substring containment over char lists: Python's `sub in s`. -/
def hasSubstrCh (p : List Char) : List Char → Bool
  | [] => p.isEmpty
  | c :: rest => p.isPrefixOf (c :: rest) || hasSubstrCh p rest

/-- Python `s.startswith(p)`. -/
def pyStartswith (s p : String) : Bool := p.toList.isPrefixOf s.toList

/-- Python `sub in s` on strings. -/
def pyInStr (sub s : String) : Bool := hasSubstrCh sub.toList s.toList

/-- Python `s.removeprefix(p)`. -/
def removePrefixStr (s p : String) : String :=
  if p.toList.isPrefixOf s.toList then String.mk (s.toList.drop p.toList.length) else s

/-- Python list slice `l[a:b]` for non-negative bounds. -/
def pySlice {α : Type} (l : List α) (a b : Nat) : List α := (l.take b).drop a

/-- The chapter-pagination slice `chapters[(page - 1) * 20 : page * 20]`
shared verbatim by `MangaFireClient.get_chapters` (mangafire.py line 206)
and `MangaKatanaClient.get_chapters` (mangakatana.py line 105), applied to
the full parsed chapter list. -/
def chapterPageSlice {α : Type} (chapters : List α) (page : Nat) : List α :=
  pySlice chapters ((page - 1) * 20) (page * 20)

/-! ## Python runtime model: values and exceptions -/

/-- Python exception kinds relevant to the plugins. -/
inductive PyErr where
  | keyError
  | attrError
  | typeError
  | jsonDecodeError
  | connectionError
deriving DecidableEq, Repr

/-- A parsed JSON value as Python would hold it (numbers modelled as integers;
floats are not needed by any claim). -/
inductive PyVal where
  | null
  | bool (b : Bool)
  | num (n : Int)
  | str (s : String)
  | arr (xs : List PyVal)
  | obj (fields : List (String × PyVal))

/-- Field lookup in an object (keys assumed distinct, as produced by
Python's json parser). -/
def lookupField : List (String × PyVal) → String → Option PyVal
  | [], _ => Option.none
  | (k, v) :: rest, key => if k = key then Option.some v else lookupField rest key

/-- Python `d.get(k, default)`: raises AttributeError when the receiver is
not a dict. -/
def dictGet (v : PyVal) (k : String) (dflt : PyVal) : Except PyErr PyVal :=
  match v with
  | PyVal.obj fs => Except.ok ((lookupField fs k).getD dflt)
  | _ => Except.error PyErr.attrError

/-- Python `d[k]`: KeyError when the key is absent from a dict, TypeError
when the receiver is not a dict. -/
def subscriptField (v : PyVal) (k : String) : Except PyErr PyVal :=
  match v with
  | PyVal.obj fs =>
    match lookupField fs k with
    | Option.some x => Except.ok x
    | Option.none => Except.error PyErr.keyError
  | _ => Except.error PyErr.typeError

/-- Python iteration `for x in v`: lists yield elements, strings yield
characters, dicts yield keys; other values raise TypeError. -/
def toIter (v : PyVal) : Except PyErr (List PyVal) :=
  match v with
  | PyVal.arr xs => Except.ok xs
  | PyVal.str s => Except.ok (s.toList.map (fun c => PyVal.str (String.mk [c])))
  | PyVal.obj fs => Except.ok (fs.map (fun kv => PyVal.str kv.1))
  | _ => Except.error PyErr.typeError

/-- Python truthiness. -/
def pyTruthy : PyVal → Bool
  | PyVal.null => false
  | PyVal.bool b => b
  | PyVal.num n => n != 0
  | PyVal.str s => !s.isEmpty
  | PyVal.arr xs => !xs.isEmpty
  | PyVal.obj fs => !fs.isEmpty

/-- Python `str(v)` (container reprs abbreviated; no claim depends on them). -/
def pyStr : PyVal → String
  | PyVal.null => "None"
  | PyVal.bool b => if b then "True" else "False"
  | PyVal.num n => toString n
  | PyVal.str s => s
  | PyVal.arr _ => "<list>"
  | PyVal.obj _ => "<dict>"

/-- Model of `urllib.parse.urljoin` for the href shapes the plugins meet:
absolute URLs pass through, root-relative and bare paths are attached to
the base. -/
def urljoinModel (base rel : String) : String :=
  if hasSubstrCh ("://".toList) rel.toList then rel
  else if ("/".toList).isPrefixOf rel.toList then base ++ rel
  else base ++ "/" ++ rel

/-! ## MangaFire plugin -/

namespace MangaFire

/-- `ceil_div(a, b) = (a + b - 1) // b` from `_descramble_image`. -/
def ceilDiv (a b : Nat) : Nat := (a + b - 1) / b

/-- `piece_width = min(PIECE_SIZE, ceil_div(width, MIN_SPLIT_COUNT))` with
`PIECE_SIZE = 200`, `MIN_SPLIT_COUNT = 5`; the same formula gives
`piece_height` on the height. -/
def pieceLen (dim : Nat) : Nat := min 200 (ceilDiv dim 5)

/-- `x_max = ceil_div(width, piece_width) - 1` (and the same on the height). -/
def tileMax (dim : Nat) : Nat := ceilDiv dim (pieceLen dim) - 1

/-- Source tile index along one axis: the index itself on the last tile,
otherwise `(max - idx + offset) % max` (Python `%`, non-negative result,
matching `Int.emod` for a positive modulus). -/
def srcIdx (maxI idx : Nat) (off : Int) : Nat :=
  if idx = maxI then idx
  else (((maxI : Int) - (idx : Int) + off) % (maxI : Int)).toNat

/-- One crop/paste operation of the descramble loop: destination origin,
region size, and source origin. -/
structure TileCopy where
  xDst : Nat
  yDst : Nat
  w : Nat
  h : Nat
  xSrc : Nat
  ySrc : Nat
deriving DecidableEq, Repr

/-- The copy the loop body performs for destination tile `(x, y)`. -/
def mkTile (W H : Nat) (off : Int) (x y : Nat) : TileCopy :=
  { xDst := pieceLen W * x
    yDst := pieceLen H * y
    w := min (pieceLen W) (W - pieceLen W * x)
    h := min (pieceLen H) (H - pieceLen H * y)
    xSrc := pieceLen W * srcIdx (tileMax W) x off
    ySrc := pieceLen H * srcIdx (tileMax H) y off }

/-- The full list of copies, in loop order (`y` outer, `x` inner), as
executed by `_descramble_image`. -/
def descrambleCopies (W H : Nat) (off : Int) : List TileCopy :=
  (List.range (tileMax H + 1)).flatMap fun y =>
    (List.range (tileMax W + 1)).map fun x => mkTile W H off x y

/-- The destination rectangle of a copy contains the pixel `(px, py)`. -/
def covers (c : TileCopy) (px py : Nat) : Prop :=
  c.xDst ≤ px ∧ px < c.xDst + c.w ∧ c.yDst ≤ py ∧ py < c.yDst + c.h

instance (c : TileCopy) (px py : Nat) : Decidable (covers c px py) := by
  unfold covers; infer_instance

/-- `result.paste(img.crop(box), dst)`: inside the pasted rectangle the new
image reads the cropped source pixels, elsewhere it is unchanged. -/
def pasteCopy {α : Type} (img : Nat → Nat → α) (prev : Nat → Nat → α) (c : TileCopy) :
    Nat → Nat → α :=
  fun px py =>
    if covers c px py then img (c.xSrc + (px - c.xDst)) (c.ySrc + (py - c.yDst))
    else prev px py

/-- The descrambled image built by the loop of `_descramble_image`: start
from a blank image and perform every crop/paste in loop order. -/
def descramble {α : Type} (W H : Nat) (off : Int) (img : Nat → Nat → α) (blank : α) :
    Nat → Nat → α :=
  (descrambleCopies W H off).foldl (pasteCopy img) (fun _ _ => blank)

/-- The transform as the specification describes it, pixel by pixel: the
destination pixel in tile `(x, y)` is read from the source tile given by
the per-axis index formula, at the same in-tile position.  (Spec-side
definition; the formulas are written out from the specification text.) -/
def descramblePixelSpec {α : Type} (W H : Nat) (off : Int) (img : Nat → Nat → α)
    (px py : Nat) : α :=
  let pw := min 200 (ceilDiv W 5)
  let ph := min 200 (ceilDiv H 5)
  let xMax := ceilDiv W pw - 1
  let yMax := ceilDiv H ph - 1
  let x := px / pw
  let y := py / ph
  let xs := if x = xMax then x else (((xMax : Int) - (x : Int) + off) % (xMax : Int)).toNat
  let ys := if y = yMax then y else (((yMax : Int) - (y : Int) + off) % (yMax : Int)).toNat
  img (pw * xs + px % pw) (ph * ys + py % ph)

/-- Modelled from the spec: the forward scramble, the inverse of the
descramble tile mapping.  The per-axis index map is an involution (proved
in `srcIdx_srcIdx` below), so its inverse is given by the same formula. -/
def scramble {α : Type} (W H : Nat) (off : Int) (img : Nat → Nat → α) :
    Nat → Nat → α :=
  fun px py =>
    img (pieceLen W * srcIdx (tileMax W) (px / pieceLen W) off + px % pieceLen W)
        (pieceLen H * srcIdx (tileMax H) (py / pieceLen H) off + py % pieceLen H)

/-- A successfully decoded image as PIL would hand it to the descrambler. -/
structure DecodedImage where
  width : Nat
  height : Nat
  pixel : Nat → Nat → Nat

/-- `_descramble_image` at the byte level: `decode` models `PILImage.open`
(returning `Option.none` when decoding raises), `encodeJpeg` models the
re-encode of the rebuilt image; the `except` branch returns the original
bytes unchanged. -/
def descrambleImage (decode : List Nat → Option DecodedImage)
    (encodeJpeg : DecodedImage → List Nat) (imageData : List Nat) (off : Int) :
    List Nat :=
  match decode imageData with
  | Option.none => imageData
  | Option.some im =>
      encodeJpeg ⟨im.width, im.height, descramble im.width im.height off im.pixel 0⟩

/-- `replace("Chapter :", "Chapter")`, fuel-indexed to stay structurally
recursive; the fuel is the input length, which always suffices. -/
def replaceChapterColonAux : Nat → List Char → List Char
  | 0, s => s
  | _, [] => []
  | fuel + 1, c :: rest =>
    match dropLiteral ("Chapter :".toList) (c :: rest) with
    | Option.some rem => "Chapter".toList ++ replaceChapterColonAux fuel rem
    | Option.none => c :: replaceChapterColonAux fuel rest

/-- Python `name.replace("Chapter :", "Chapter")`. -/
def replaceChapterColon (s : List Char) : List Char :=
  replaceChapterColonAux s.length s

/-- The chapter display name built by `get_chapters` (mangafire.py lines
194-200): template when a number is present, then collapse `"Chapter :"`,
strip, and drop one trailing colon. -/
def getChaptersName (number title : List Char) : List Char :=
  let name := if number.isEmpty then title
    else ("Chapter ".toList ++ number) ++ (": ".toList ++ title)
  let cleaned := stripChars (replaceChapterColon name)
  if [':'].isSuffixOf cleaned then cleaned.dropLast else cleaned

/-- The chapter display name built by `iter_chapters` (mangafire.py line
235): no cleanup is applied. -/
def iterChaptersName (number title : List Char) : List Char :=
  if number.isEmpty then title else "Chapter ".toList ++ number

/-- `contains_url`: `"mangafire.to" in url` — a substring test. -/
def contains_url (url : String) : Bool := pyInStr "mangafire.to" url

/-- Collect `urljoin(base, link["href"])` over the selected containers of
the latest-updates page.  Each element models `select_one(".info > a")`:
`Option.none` when no link was found (skipped), `Option.some Option.none`
a link without an href attribute (raises KeyError), `Option.some
(Option.some h)` a link with href `h`. -/
def collectUpdateUrls : List (Option (Option String)) → Except PyErr (List String)
  | [] => Except.ok []
  | Option.none :: rest => collectUpdateUrls rest
  | Option.some Option.none :: _ => Except.error PyErr.keyError
  | Option.some (Option.some h) :: rest => do
      let us ← collectUpdateUrls rest
      Except.ok (urljoinModel "https://mangafire.to" h :: us)

/-- The classification loop over previously-known URLs: members of the
updates set go to `updated`, the rest to `not_updated`, in input order. -/
def classifyUrls (updates : List String) : List String → List String × List String
  | [] => ([], [])
  | u :: rest =>
    let p := classifyUrls updates rest
    if updates.contains u then (u :: p.1, p.2) else (p.1, u :: p.2)

/-- `check_updated_urls` for MangaFire: the fetch and the parse are not
wrapped in any exception handler, so failures propagate to the caller. -/
def check_updated_urls (fetched : Except PyErr (List (Option (Option String))))
    (lastUrls : List String) : Except PyErr (List String × List String) := do
  let elems ← fetched
  let updates ← collectUpdateUrls elems
  Except.ok (classifyUrls updates lastUrls)

end MangaFire

/-! ## MangaKatana plugin -/

namespace MangaKatana

/-- Try to match the marker regex `data-src['"],\s*(\w+)` at the head of
the input; on success return the captured variable name.  The whitespace
and word classes are disjoint, so greedy matching needs no backtracking. -/
def matchMarkerHere (s : List Char) : Option (List Char) :=
  match dropLiteral ("data-src".toList) s with
  | Option.none => Option.none
  | Option.some rest =>
    match rest with
    | [] => Option.none
    | c :: rest2 =>
      if c == sqc || c == '"' then
        match rest2 with
        | ',' :: rest3 =>
          let name := (rest3.dropWhile isSpaceChar).takeWhile isWordChar
          if name.isEmpty then Option.none else Option.some name
        | _ => Option.none
      else Option.none

/-- `re.search` of the marker: scan left to right, first match wins. -/
def findMarker : List Char → Option (List Char)
  | [] => Option.none
  | c :: rest =>
    match matchMarkerHere (c :: rest) with
    | Option.some name => Option.some name
    | Option.none => findMarker rest

/-- Capture the characters before the first `]`; fail when no `]` follows,
exactly as the greedy group of non-`]` characters must be closed. -/
def takeUntilRBracket : List Char → Option (List Char)
  | [] => Option.none
  | c :: cs => if c == ']' then Option.some [] else (takeUntilRBracket cs).map (c :: ·)

/-- Try to match `var {name}=[([^\]]*)\]` at the head of the input. -/
def matchArrayHere (nm : List Char) (s : List Char) : Option (List Char) :=
  match dropLiteral (("var ".toList ++ nm) ++ "=[".toList) s with
  | Option.none => Option.none
  | Option.some rest => takeUntilRBracket rest

/-- `re.search` of the array assignment for the captured variable name. -/
def findArray (nm : List Char) : List Char → Option (List Char)
  | [] => Option.none
  | c :: rest =>
    match matchArrayHere nm (c :: rest) with
    | Option.some arr => Option.some arr
    | Option.none => findArray nm rest

/-- One-pass scanner for `re.findall` of single-quoted literals: outside a
literal wait for a quote, inside accumulate until the closing quote; an
unclosed final literal yields nothing. -/
def scanQuoted : List Char → Option (List Char) → List (List Char)
  | [], _ => []
  | c :: cs, Option.none =>
    if c == sqc then scanQuoted cs (Option.some []) else scanQuoted cs Option.none
  | c :: cs, Option.some acc =>
    if c == sqc then acc.reverse :: scanQuoted cs Option.none
    else scanQuoted cs (Option.some (c :: acc))

/-- `re.findall` of single-quoted literal contents over the captured array
text. -/
def findallQuoted (s : List Char) : List (List Char) := scanQuoted s Option.none

/-- `pictures_from_chapters` (mangakatana.py lines 62-93): find the marker
variable name, then its array literal, then the quoted strings inside it;
either lookup failing yields the empty list. -/
def pictures_from_chapters (s : List Char) : List (List Char) :=
  match findMarker s with
  | Option.none => []
  | Option.some nm =>
    match findArray nm s with
    | Option.none => []
    | Option.some raw => findallQuoted raw

/-- A fixture input holding both the marker `data-src', foo);` and the
array `var foo=['a','b','c']`. -/
def exInput : List Char :=
  ("x.setAttribute(" ++ sqs ++ "data-src" ++ sqs ++ ", foo);var foo=[" ++ sqs ++ "a" ++ sqs
    ++ "," ++ sqs ++ "b" ++ sqs ++ "," ++ sqs ++ "c" ++ sqs ++ "];").toList

/-- A fixture input holding the marker but no array assignment. -/
def exInputNoArr : List Char :=
  ("y.attr(" ++ sqs ++ "data-src" ++ sqs ++ ", bar);").toList

/-- `contains_url`: `url.startswith(self.base_url)`. -/
def contains_url (url : String) : Bool := pyStartswith url "https://mangakatana.com"

end MangaKatana

/-! ## Atsumaru plugin -/

namespace Atsumaru

/-- A search result card: `MangaCard(self, title, manga_url, thumbnail_url)`
(the title is whatever Python value the payload held). -/
structure SCard where
  name : PyVal
  url : String
  thumb : String

/-- The per-item body of the `mangas` loop of `search` (atsumaru.py lines
56-75): field lookups, the `or`-fallback for the poster, thumbnail path
normalization, and the card construction. -/
def buildCard (item : PyVal) : Except PyErr SCard := do
  let mangaId ← dictGet item "id" PyVal.null
  let title ← dictGet item "title" PyVal.null
  let poster ← dictGet item "poster" PyVal.null
  let imagePath0 ← if pyTruthy poster then Except.ok poster else dictGet item "image" PyVal.null
  let imagePath :=
    match imagePath0 with
    | PyVal.obj fs => (lookupField fs "image").getD PyVal.null
    | v => v
  let thumb :=
    if pyTruthy imagePath then
      "https://atsu.moe/static/" ++ removePrefixStr (removePrefixStr (pyStr imagePath) "/") "static/"
    else ""
  Except.ok ⟨title, "https://atsu.moe/manga/" ++ pyStr mangaId, thumb⟩

/-- `search` (atsumaru.py lines 19-77).  `body` is the fetched response
after the `json.loads` attempt: `Option.none` when parsing raised
`json.JSONDecodeError` (the only exception the code catches, turning it
into `[]`); every other error of either branch propagates. -/
def search (query : String) (body : Option PyVal) : Except PyErr (List SCard) :=
  if query.isEmpty then
    match body with
    | Option.none => Except.ok []
    | Option.some data => do
        let items ← dictGet data "items" (PyVal.arr [])
        let itemsL ← toIter items
        itemsL.mapM buildCard
  else
    match body with
    | Option.none => Except.ok []
    | Option.some data => do
        let hits ← dictGet data "hits" (PyVal.arr [])
        let hitsL ← toIter hits
        let items ← hitsL.mapM (fun h => subscriptField h "document")
        items.mapM buildCard

/-- One step of the `iter_chapters` loop state (atsumaru.py lines 118-152):
`src page` is the fetched-and-parsed page, `Option.none` when fetching or
parsing the page raised (the bare `except` breaks), otherwise the chapter
list and the `pages` field (`data.get("pages", 0)` folded in).  The fuel
argument bounds the number of loop iterations; `Option.none` means the
fuel ran out before the loop broke. -/
def iterChaptersRun {α : Type} (src : Nat → Option (List α × Nat)) :
    Nat → Nat → Option (List α)
  | 0, _ => Option.none
  | fuel + 1, page =>
    match src page with
    | Option.none => Option.some []
    | Option.some (chs, pgs) =>
      if chs.isEmpty then Option.some []
      else if pgs ≤ page + 1 then Option.some chs
      else
        match iterChaptersRun src fuel (page + 1) with
        | Option.none => Option.none
        | Option.some rest => Option.some (chs ++ rest)

/-- `iter_chapters`: the loop starts at page 0 on every invocation. -/
def iterChapters {α : Type} (src : Nat → Option (List α × Nat)) (fuel : Nat) :
    Option (List α) :=
  iterChaptersRun src fuel 0

/-- Page `N` of the source yields no items (it fails to parse, or parses to
an empty chapter list). -/
def noItemsAt {α : Type} (src : Nat → Option (List α × Nat)) (N : Nat) : Prop :=
  ∀ chs pgs, src N = Option.some (chs, pgs) → chs = []

/-- The `try` block of `check_updated_urls` (atsumaru.py lines 205-226):
parse the body, read `items`, iterate them (each iteration only does
lookups), then return `([], all previous urls)`. -/
def checkUpdatedTryBlock (body : Option PyVal) (lastUrls : List String) :
    Except PyErr (List String × List String) :=
  match body with
  | Option.none => Except.error PyErr.jsonDecodeError
  | Option.some data =>
    match dictGet data "items" (PyVal.arr []) with
    | Except.error e => Except.error e
    | Except.ok items =>
      match toIter items with
      | Except.error e => Except.error e
      | Except.ok itemsL =>
        match itemsL.mapM (fun it => dictGet it "id" PyVal.null) with
        | Except.error e => Except.error e
        | Except.ok _ => Except.ok ([], lastUrls)

/-- `check_updated_urls` (atsumaru.py lines 201-229): the fetch happens
before the `try`, so fetch failures propagate; inside the `try` every
exception is caught and turned into `([], [])`. -/
def check_updated_urls (fetched : Except PyErr (Option PyVal)) (lastUrls : List String) :
    Except PyErr (List String × List String) := do
  let body ← fetched
  match checkUpdatedTryBlock body lastUrls with
  | Except.error _ => Except.ok ([], [])
  | Except.ok r => Except.ok r

/-- `contains_url`: `url.startswith("https://atsu.moe/")`. -/
def contains_url (url : String) : Bool := pyStartswith url "https://atsu.moe/"

end Atsumaru

/-! ## Theorems -/

/-! ### Descramble geometry (helper lemmas) -/

namespace MangaFire

lemma pieceLen_pos {W : Nat} (hW : 1 ≤ W) : 1 ≤ pieceLen W := by
  unfold pieceLen ceilDiv
  omega

lemma tileMax_eq {W : Nat} (hW : 1 ≤ W) : tileMax W = (W - 1) / pieceLen W := by
  have hpw := pieceLen_pos hW
  unfold tileMax ceilDiv
  have h1 : W + pieceLen W - 1 = (W - 1) + pieceLen W := by omega
  rw [h1, Nat.add_div_right (W - 1) (show 0 < pieceLen W by omega)]
  exact Nat.add_sub_cancel _ _

lemma div_le_tileMax {W px : Nat} (hW : 1 ≤ W) (hpx : px < W) :
    px / pieceLen W ≤ tileMax W := by
  rw [tileMax_eq hW]
  exact Nat.div_le_div_right (by omega)

lemma srcIdx_le {maxI i : Nat} (off : Int) (h : i ≤ maxI) : srcIdx maxI i off ≤ maxI := by
  unfold srcIdx
  split
  · omega
  · rename_i hne
    have hm : 0 < maxI := by omega
    have hmz : ((maxI : Int)) ≠ 0 := by exact_mod_cast Nat.pos_iff_ne_zero.mp hm
    have h1 : (0 : Int) ≤ ((maxI : Int) - (i : Int) + off) % (maxI : Int) :=
      Int.emod_nonneg _ hmz
    have h2 : ((maxI : Int) - (i : Int) + off) % (maxI : Int) < (maxI : Int) :=
      Int.emod_lt_of_pos _ (by exact_mod_cast hm)
    omega

lemma srcIdx_max (maxI : Nat) (off : Int) : srcIdx maxI maxI off = maxI := by
  simp [srcIdx]

lemma srcIdx_srcIdx {maxI i : Nat} (off : Int) (h : i ≤ maxI) :
    srcIdx maxI (srcIdx maxI i off) off = i := by
  rcases Nat.eq_or_lt_of_le h with heq | hlt
  · rw [heq, srcIdx_max, srcIdx_max]
  · have hm : 0 < maxI := by omega
    have hm' : (0 : Int) < (maxI : Int) := by exact_mod_cast hm
    have hmz : ((maxI : Int)) ≠ 0 := by omega
    set e : Int := ((maxI : Int) - (i : Int) + off) % (maxI : Int) with hedef
    have he0 : 0 ≤ e := Int.emod_nonneg _ hmz
    have helt : e < (maxI : Int) := Int.emod_lt_of_pos _ hm'
    have hinner : srcIdx maxI i off = e.toNat := by
      simp [srcIdx, Nat.ne_of_lt hlt, hedef]
    have hlt2 : e.toNat < maxI := by omega
    have houter : srcIdx maxI e.toNat off =
        (((maxI : Int) - (e.toNat : Int) + off) % (maxI : Int)).toNat := by
      simp [srcIdx, Nat.ne_of_lt hlt2]
    have hcast : ((e.toNat : Int)) = e := Int.toNat_of_nonneg he0
    have key : ((maxI : Int) - e + off) % (maxI : Int) = (i : Int) := by
      have hq : e = ((maxI : Int) - (i : Int) + off) -
          (maxI : Int) * (((maxI : Int) - (i : Int) + off) / (maxI : Int)) := by
        rw [hedef]; exact Int.emod_def _ _
      have hrw : (maxI : Int) - e + off =
          (i : Int) + (maxI : Int) * (((maxI : Int) - (i : Int) + off) / (maxI : Int)) := by
        rw [hq]; ring
      rw [hrw, Int.add_mul_emod_self_left]
      exact Int.emod_eq_of_lt (by exact_mod_cast Nat.zero_le i) (by exact_mod_cast hlt)
    rw [hinner, houter, hcast, key]
    omega

lemma covers_mkTile_self {W H : Nat} (off : Int) (hW : 1 ≤ W) (hH : 1 ≤ H)
    {px py : Nat} (hx : px < W) (hy : py < H) :
    covers (mkTile W H off (px / pieceLen W) (py / pieceLen H)) px py := by
  have hpw := pieceLen_pos hW
  have hph := pieceLen_pos hH
  have hdx := Nat.div_add_mod px (pieceLen W)
  have hdy := Nat.div_add_mod py (pieceLen H)
  have hmx := Nat.mod_lt px (show 0 < pieceLen W by omega)
  have hmy := Nat.mod_lt py (show 0 < pieceLen H by omega)
  unfold covers mkTile
  dsimp only
  refine ⟨by omega, by omega, by omega, by omega⟩

lemma covers_mkTile_unique {W H : Nat} (off : Int) (hW : 1 ≤ W) (hH : 1 ≤ H)
    {x y px py : Nat} (h : covers (mkTile W H off x y) px py) :
    x = px / pieceLen W ∧ y = py / pieceLen H := by
  have hpw := pieceLen_pos hW
  have hph := pieceLen_pos hH
  unfold covers mkTile at h
  dsimp only at h
  obtain ⟨h1, h2, h3, h4⟩ := h
  have h5 : (x + 1) * pieceLen W = pieceLen W * x + pieceLen W := by ring
  have h6 : x * pieceLen W = pieceLen W * x := by ring
  have h7 : (y + 1) * pieceLen H = pieceLen H * y + pieceLen H := by ring
  have h8 : y * pieceLen H = pieceLen H * y := by ring
  exact ⟨(Nat.div_eq_of_lt_le (by omega) (by omega)).symm,
         (Nat.div_eq_of_lt_le (by omega) (by omega)).symm⟩

lemma mem_descrambleCopies {W H : Nat} (off : Int) {c : TileCopy} :
    c ∈ descrambleCopies W H off ↔
      ∃ x y, x ≤ tileMax W ∧ y ≤ tileMax H ∧ c = mkTile W H off x y := by
  unfold descrambleCopies
  simp only [List.mem_flatMap, List.mem_map, List.mem_range, Nat.lt_succ_iff]
  constructor
  · rintro ⟨y, hy, x, hx, rfl⟩
    exact ⟨x, y, hx, hy, rfl⟩
  · rintro ⟨x, y, hx, hy, rfl⟩
    exact ⟨y, hy, x, hx, rfl⟩

lemma foldl_paste_not_covered {α : Type} (img : Nat → Nat → α) (px py : Nat) :
    ∀ (L : List TileCopy) (init : Nat → Nat → α),
      (∀ c ∈ L, ¬ covers c px py) →
      L.foldl (pasteCopy img) init px py = init px py := by
  intro L
  induction L with
  | nil => intro init _; rfl
  | cons c rest ih =>
    intro init hnc
    rw [List.foldl_cons, ih _ (fun d hd => hnc d (List.mem_cons_of_mem _ hd))]
    simp only [pasteCopy]
    rw [if_neg (hnc c (List.mem_cons_self _ _))]

lemma foldl_paste_covered {α : Type} (img : Nat → Nat → α) (px py : Nat) :
    ∀ (L : List TileCopy) (init : Nat → Nat → α) (c₀ : TileCopy),
      c₀ ∈ L → covers c₀ px py → (∀ c ∈ L, covers c px py → c = c₀) →
      L.foldl (pasteCopy img) init px py =
        img (c₀.xSrc + (px - c₀.xDst)) (c₀.ySrc + (py - c₀.yDst)) := by
  intro L
  induction L with
  | nil => intro _ _ h; exact absurd h (List.not_mem_nil _)
  | cons c rest ih =>
    intro init c₀ hmem hcov huniq
    rw [List.foldl_cons]
    by_cases hr : c₀ ∈ rest
    · exact ih _ c₀ hr hcov (fun d hd hcd => huniq d (List.mem_cons_of_mem _ hd) hcd)
    · have hc : c = c₀ := by
        rcases List.mem_cons.mp hmem with h | h
        · exact h.symm
        · exact absurd h hr
      subst hc
      have hnone : ∀ d ∈ rest, ¬ covers d px py := by
        intro d hd hcd
        have heq := huniq d (List.mem_cons_of_mem _ hd) hcd
        exact hr (heq ▸ hd)
      rw [foldl_paste_not_covered img px py rest _ hnone]
      simp only [pasteCopy]
      rw [if_pos hcov]

lemma descramble_pixel {α : Type} (W H : Nat) (off : Int) (img : Nat → Nat → α)
    (blank : α) (hW : 1 ≤ W) (hH : 1 ≤ H) {px py : Nat} (hx : px < W) (hy : py < H) :
    descramble W H off img blank px py = descramblePixelSpec W H off img px py := by
  have hpw := pieceLen_pos hW
  have hph := pieceLen_pos hH
  have hc₀mem : mkTile W H off (px / pieceLen W) (py / pieceLen H) ∈ descrambleCopies W H off :=
    (mem_descrambleCopies off).mpr ⟨_, _, div_le_tileMax hW hx, div_le_tileMax hH hy, rfl⟩
  have hcov := covers_mkTile_self off hW hH hx hy
  have huniq : ∀ c ∈ descrambleCopies W H off, covers c px py →
      c = mkTile W H off (px / pieceLen W) (py / pieceLen H) := by
    intro c hc hccov
    obtain ⟨x, y, hxle, hyle, rfl⟩ := (mem_descrambleCopies off).mp hc
    obtain ⟨hx1, hy1⟩ := covers_mkTile_unique off hW hH hccov
    rw [hx1, hy1]
  unfold descramble
  rw [foldl_paste_covered img px py _ _ _ hc₀mem hcov huniq]
  show img (pieceLen W * srcIdx (tileMax W) (px / pieceLen W) off +
              (px - pieceLen W * (px / pieceLen W)))
          (pieceLen H * srcIdx (tileMax H) (py / pieceLen H) off +
              (py - pieceLen H * (py / pieceLen H))) = _
  have hdx := Nat.div_add_mod px (pieceLen W)
  have hdy := Nat.div_add_mod py (pieceLen H)
  have hrx : px - pieceLen W * (px / pieceLen W) = px % pieceLen W := by omega
  have hry : py - pieceLen H * (py / pieceLen H) = py % pieceLen H := by omega
  rw [hrx, hry]
  rfl

end MangaFire

namespace MangaFire

lemma tile_decomp {pw s r : Nat} (hpw : 0 < pw) (hr : r < pw) :
    (pw * s + r) / pw = s ∧ (pw * s + r) % pw = r := by
  constructor
  · rw [Nat.mul_add_div hpw]
    simp [Nat.div_eq_of_lt hr]
  · rw [Nat.mul_add_mod]
    exact Nat.mod_eq_of_lt hr

lemma spec_eq_srcIdx {α : Type} (W H : Nat) (off : Int) (img : Nat → Nat → α)
    (px py : Nat) :
    descramblePixelSpec W H off img px py =
      img (pieceLen W * srcIdx (tileMax W) (px / pieceLen W) off + px % pieceLen W)
          (pieceLen H * srcIdx (tileMax H) (py / pieceLen H) off + py % pieceLen H) := rfl

lemma spec_scramble {α : Type} (W H : Nat) (off : Int) (img : Nat → Nat → α)
    (hW : 1 ≤ W) (hH : 1 ≤ H) {px py : Nat} (hx : px < W) (hy : py < H) :
    descramblePixelSpec W H off (scramble W H off img) px py = img px py := by
  have hpw := pieceLen_pos hW
  have hph := pieceLen_pos hH
  rw [spec_eq_srcIdx]
  unfold scramble
  obtain ⟨hd1, hm1⟩ := tile_decomp (s := srcIdx (tileMax W) (px / pieceLen W) off)
    (show 0 < pieceLen W by omega) (Nat.mod_lt px (show 0 < pieceLen W by omega))
  obtain ⟨hd2, hm2⟩ := tile_decomp (s := srcIdx (tileMax H) (py / pieceLen H) off)
    (show 0 < pieceLen H by omega) (Nat.mod_lt py (show 0 < pieceLen H by omega))
  rw [hd1, hm1, hd2, hm2]
  rw [srcIdx_srcIdx off (div_le_tileMax hW hx), srcIdx_srcIdx off (div_le_tileMax hH hy)]
  rw [Nat.div_add_mod px (pieceLen W), Nat.div_add_mod py (pieceLen H)]

end MangaFire

/-- Claim C1: for every image of dimensions `(W, H)` and every integer
offset, the descrambling transform computes piece sizes
`pw = min(200, ceilDiv(W, 5))` and `ph = min(200, ceilDiv(H, 5))`, tile
bounds `xMax = ceilDiv(W, pw) - 1` and `yMax = ceilDiv(H, ph) - 1`, and
every destination tile `(x, y)` (destination origin `(pw·x, ph·y)`, size
`(min(pw, W - pw·x), min(ph, H - ph·y))`) is copied from the source tile
whose per-axis index is the destination index on the last tile of that
axis and `(max - idx + offset) mod max` otherwise: pixel by pixel, the
image built by the crop/paste loop agrees with that closed-form mapping on
every in-bounds pixel. -/
theorem c1_descramble_tile_mapping {α : Type} (W H : Nat) (off : Int)
    (img : Nat → Nat → α) (blank : α) (hW : 1 ≤ W) (hH : 1 ≤ H)
    (px py : Nat) (hx : px < W) (hy : py < H) :
    MangaFire.descramble W H off img blank px py =
      MangaFire.descramblePixelSpec W H off img px py :=
  MangaFire.descramble_pixel W H off img blank hW hH hx hy

/-- Witness for C1 at `W = H = 10`, `offset = 3`, pixel `(0, 0)`: the
descrambled pixel is read from source tile `(3, 3)`, i.e. pixel `(6, 6)`. -/
theorem c1_witness :
    MangaFire.descramble 10 10 3 (fun x y => 100 * x + y) 0 0 0 =
      MangaFire.descramblePixelSpec 10 10 3 (fun x y => 100 * x + y) 0 0 ∧
    MangaFire.descramblePixelSpec 10 10 3 (fun x y => 100 * x + y) 0 0 = 606 :=
  ⟨c1_descramble_tile_mapping 10 10 3 (fun x y => 100 * x + y) 0 (by decide) (by decide)
      0 0 (by decide) (by decide),
   by decide⟩

/-- Counterexample to claim C2: the claim asserts that every edge tile (the
final row and final column) is left invariant by the descramble.  At
`W = H = 10`, `offset = 1`, the pixel `(8, 0)` lies in the final-column
tile `(4, 0)` (since `8 / 2 = 4 = xMax`), yet descrambling the image whose
pixel at `(x, y)` is the pair `(x, y)` changes it: the tile is filled from
tile `(4, 1)`, so the pixel becomes `(8, 2)`. -/
theorem c2_edge_tile_counterexample :
    8 / MangaFire.pieceLen 10 = MangaFire.tileMax 10 ∧
    MangaFire.descramble 10 10 1 (fun x y => (x, y)) (0, 0) 8 0 = (8, 2) ∧
    MangaFire.descramble 10 10 1 (fun x y => (x, y)) (0, 0) 8 0 ≠ (8, 0) :=
  ⟨by decide, by decide, by decide⟩

/-- Claim C2, amended: applying the forward scramble (the inverse of the
descramble tile mapping, given by the same index formula since that
mapping is an involution) and then the descramble reproduces the original
pixel content exactly on every in-bounds pixel — in particular on every
non-edge tile; but of the edge tiles only the corner tile (final row AND
final column) is left invariant by the scramble and the descramble: an
edge tile keeps its index along its edge axis while being permuted along
the other axis. -/
theorem c2_roundtrip_amended {α : Type} (W H : Nat) (off : Int) (img : Nat → Nat → α)
    (blank : α) (hW : 1 ≤ W) (hH : 1 ≤ H) (px py : Nat) (hx : px < W) (hy : py < H) :
    MangaFire.descramble W H off (MangaFire.scramble W H off img) blank px py = img px py ∧
    (px / MangaFire.pieceLen W = MangaFire.tileMax W →
     py / MangaFire.pieceLen H = MangaFire.tileMax H →
     MangaFire.descramble W H off img blank px py = img px py ∧
     MangaFire.scramble W H off img px py = img px py) := by
  constructor
  · rw [MangaFire.descramble_pixel W H off _ blank hW hH hx hy]
    exact MangaFire.spec_scramble W H off img hW hH hx hy
  · intro hcx hcy
    have hsx : MangaFire.srcIdx (MangaFire.tileMax W) (px / MangaFire.pieceLen W) off =
        px / MangaFire.pieceLen W := by
      rw [hcx]; exact MangaFire.srcIdx_max _ off
    have hsy : MangaFire.srcIdx (MangaFire.tileMax H) (py / MangaFire.pieceLen H) off =
        py / MangaFire.pieceLen H := by
      rw [hcy]; exact MangaFire.srcIdx_max _ off
    constructor
    · rw [MangaFire.descramble_pixel W H off _ blank hW hH hx hy,
        MangaFire.spec_eq_srcIdx, hsx, hsy,
        Nat.div_add_mod px (MangaFire.pieceLen W), Nat.div_add_mod py (MangaFire.pieceLen H)]
    · unfold MangaFire.scramble
      rw [hsx, hsy,
        Nat.div_add_mod px (MangaFire.pieceLen W), Nat.div_add_mod py (MangaFire.pieceLen H)]

/-- Witness for C2 at `W = H = 10`, `offset = 1`: the round trip restores
the pixel `(3, 7)`, and the corner-tile pixel `(9, 9)` is invariant. -/
theorem c2_witness :
    MangaFire.descramble 10 10 1 (MangaFire.scramble 10 10 1 (fun x y => 100 * x + y)) 0 3 7 =
      307 ∧
    MangaFire.descramble 10 10 1 (fun x y => 100 * x + y) 0 9 9 = 909 :=
  ⟨(c2_roundtrip_amended 10 10 1 (fun x y => 100 * x + y) 0 (by decide) (by decide)
      3 7 (by decide) (by decide)).1,
   ((c2_roundtrip_amended 10 10 1 (fun x y => 100 * x + y) 0 (by decide) (by decide)
      9 9 (by decide) (by decide)).2 (by decide) (by decide)).1⟩

/-! ### MangaKatana asset extraction (C3) -/

/-- Claim C3: `pictures_from_chapters` returns `[]` when the marker matches
but no array assignment for the matched variable name is present; when
both are present it returns exactly the single-quoted string literals of
that array in source order; on the fixture holding `data-src', foo);` and
`var foo=['a','b','c']` it returns `["a", "b", "c"]`.  (The function is
total, so it cannot raise.) -/
theorem c3_asset_extraction :
    (∀ (s nm : List Char), MangaKatana.findMarker s = Option.some nm →
      MangaKatana.findArray nm s = Option.none →
      MangaKatana.pictures_from_chapters s = []) ∧
    (∀ (s nm raw : List Char), MangaKatana.findMarker s = Option.some nm →
      MangaKatana.findArray nm s = Option.some raw →
      MangaKatana.pictures_from_chapters s = MangaKatana.findallQuoted raw) ∧
    MangaKatana.pictures_from_chapters MangaKatana.exInput =
      ["a".toList, "b".toList, "c".toList] := by
  refine ⟨?_, ?_, by decide⟩
  · intro s nm h1 h2
    simp [MangaKatana.pictures_from_chapters, h1, h2]
  · intro s nm raw h1 h2
    simp [MangaKatana.pictures_from_chapters, h1, h2]

/-- Witness for C3 on the fixture whose marker names `bar` but which holds
no array assignment: the extractor returns the empty list. -/
theorem c3_witness :
    MangaKatana.findMarker MangaKatana.exInputNoArr = Option.some ("bar".toList) ∧
    MangaKatana.findArray ("bar".toList) MangaKatana.exInputNoArr = Option.none ∧
    MangaKatana.pictures_from_chapters MangaKatana.exInputNoArr = [] :=
  ⟨by decide, by decide,
   c3_asset_extraction.1 MangaKatana.exInputNoArr ("bar".toList) (by decide) (by decide)⟩

/-! ### Chapter pagination slice (C4) -/

/-- Claim C4: for every full parsed chapter list and every page `p ≥ 1`,
the pagination fallback returns exactly the slice `[(p-1)*20, p*20)` of
the list — element `i` of the result is element `(p-1)*20 + i` of the full
list, for `i < 20`, and nothing more; in particular page 2 is elements 20
through 39. -/
theorem c4_pagination_slice {α : Type} (chapters : List α) (page : Nat) (hp : 1 ≤ page) :
    (∀ i : Nat, (chapterPageSlice chapters page)[i]? =
      if i < 20 then chapters[(page - 1) * 20 + i]? else Option.none) ∧
    chapterPageSlice chapters 2 = (chapters.drop 20).take 20 := by
  constructor
  · intro i
    unfold chapterPageSlice pySlice
    rw [List.getElem?_drop, List.getElem?_take]
    by_cases h : i < 20
    · rw [if_pos (by omega), if_pos h]
    · rw [if_neg (by omega), if_neg h]
  · show (chapters.take (2 * 20)).drop ((2 - 1) * 20) = _
    norm_num
    rw [List.drop_take 40 20 chapters]

/-- Witness for C4 on `List.range 45`, page 2. -/
theorem c4_witness :
    (chapterPageSlice (List.range 45) 2)[3]? =
      (if 3 < 20 then (List.range 45)[(2 - 1) * 20 + 3]? else Option.none) ∧
    chapterPageSlice (List.range 45) 2 = ((List.range 45).drop 20).take 20 :=
  ⟨(c4_pagination_slice (List.range 45) 2 (by decide)).1 3,
   (c4_pagination_slice (List.range 45) 2 (by decide)).2⟩

/-! ### Atsumaru chapter iteration (C5) -/

namespace Atsumaru

lemma iterRun_mono {α : Type} (src : Nat → Option (List α × Nat)) :
    ∀ (fuel fuel' page : Nat) (out : List α), fuel ≤ fuel' →
      iterChaptersRun src fuel page = Option.some out →
      iterChaptersRun src fuel' page = Option.some out := by
  intro fuel
  induction fuel with
  | zero =>
    intro fuel' page out _ h
    simp [iterChaptersRun] at h
  | succ n ih =>
    intro fuel' page out hle h
    obtain ⟨m, rfl⟩ : ∃ m, fuel' = m + 1 := ⟨fuel' - 1, by omega⟩
    unfold iterChaptersRun at h ⊢
    cases hsp : src page with
    | none => simp only [hsp] at h ⊢; exact h
    | some pr =>
      obtain ⟨chs, pgs⟩ := pr
      simp only [hsp] at h ⊢
      by_cases hemp : chs.isEmpty
      · rw [if_pos hemp] at h ⊢; exact h
      · rw [if_neg hemp] at h ⊢
        by_cases hpg : pgs ≤ page + 1
        · rw [if_pos hpg] at h ⊢; exact h
        · rw [if_neg hpg] at h ⊢
          cases hrec : iterChaptersRun src n (page + 1) with
          | none => rw [hrec] at h; exact absurd h (by simp)
          | some rest =>
            rw [hrec] at h
            rw [ih m (page + 1) rest (by omega) hrec]
            exact h

lemma iterRun_terminates {α : Type} (src : Nat → Option (List α × Nat)) :
    ∀ (fuel page N : Nat), page ≤ N → N < page + fuel → noItemsAt src N →
      ∃ out, iterChaptersRun src fuel page = Option.some out := by
  intro fuel
  induction fuel with
  | zero => intro page N h1 h2 _; omega
  | succ n ih =>
    intro page N h1 h2 hN
    unfold iterChaptersRun
    cases hsp : src page with
    | none => exact ⟨[], by simp only [hsp]⟩
    | some pr =>
      obtain ⟨chs, pgs⟩ := pr
      simp only [hsp]
      by_cases hemp : chs.isEmpty
      · exact ⟨[], by rw [if_pos hemp]⟩
      · rw [if_neg hemp]
        by_cases hpg : pgs ≤ page + 1
        · exact ⟨chs, by rw [if_pos hpg]⟩
        · rw [if_neg hpg]
          have hne : page ≠ N := by
            intro he
            have hchs := hN chs pgs (he ▸ hsp)
            rw [hchs] at hemp
            exact hemp rfl
          obtain ⟨out, hout⟩ := ih (page + 1) N (by omega) (by omega) hN
          exact ⟨chs ++ out, by rw [hout]⟩

end Atsumaru

/-- Claim C5: for every source whose pages eventually yield no items (page
`N` fails to parse or parses to an empty chapter list), `iter_chapters`
terminates in finitely many steps — any loop bound above `N` suffices,
whatever the upstream `pages` field reports (zero or inconsistent values
included) — and since every invocation restarts from page 0, all
sufficiently-fuelled invocations yield the same finite sequence. -/
theorem c5_iter_termination {α : Type} (src : Nat → Option (List α × Nat)) (N : Nat)
    (hN : Atsumaru.noItemsAt src N) :
    ∃ out, ∀ fuel, N < fuel → Atsumaru.iterChapters src fuel = Option.some out := by
  obtain ⟨out, hout⟩ :=
    Atsumaru.iterRun_terminates src (N + 1) 0 N (Nat.zero_le N) (by omega) hN
  exact ⟨out, fun fuel hf =>
    Atsumaru.iterRun_mono src (N + 1) fuel 0 out (by omega) hout⟩

/-- Witness for C5: a source whose page 0 has one chapter (with an absurd
`pages = 5` field) and whose page 1 is empty still terminates, and all
invocations with enough fuel agree. -/
theorem c5_witness :
    ∃ out, ∀ fuel, 1 < fuel →
      Atsumaru.iterChapters
        (fun n => if n = 0 then Option.some ([7], 5) else Option.some ([], 5)) fuel =
      Option.some out :=
  c5_iter_termination (fun n => if n = 0 then Option.some ([7], 5) else Option.some ([], 5)) 1
    (by
      intro chs pgs h
      simp at h
      exact h.1)

/-! ### Search error handling (C6) -/

/-- Counterexample to claim C6: the claim asserts `search` never raises on
a malformed upstream body — including valid JSON of the wrong shape such
as a hit object missing the `document` key.  But the Atsumaru `search`
only catches `json.JSONDecodeError`: on the body `{"hits": [{}]}` the
subscript `hit["document"]` raises `KeyError`, which propagates to the
caller. -/
theorem c6_search_raises_counterexample :
    Atsumaru.search "naruto"
      (Option.some (PyVal.obj [("hits", PyVal.arr [PyVal.obj []])])) =
      Except.error PyErr.keyError := rfl

/-- Claim C6, amended: `search` returns the empty sequence without raising
when the response body is not valid JSON (for any query, in both the
empty-query trending branch and the search branch); but a body that is
valid JSON of an unexpected shape (e.g. a hit object missing the
`document` key) raises an uncaught error instead of returning empty. -/
theorem c6_search_amended (query : String) :
    Atsumaru.search query Option.none = Except.ok [] := by
  cases h : query.isEmpty <;> simp [Atsumaru.search, h]

/-! ### Recent-updates error handling (C7) -/

namespace Atsumaru

lemma tryBlock_ok {body : Option PyVal} {l : List String}
    {r : List String × List String} (h : checkUpdatedTryBlock body l = Except.ok r) :
    r = ([], l) := by
  cases body with
  | none => exact absurd h (by simp [checkUpdatedTryBlock])
  | some d =>
    simp only [checkUpdatedTryBlock] at h
    cases h1 : dictGet d "items" (PyVal.arr []) with
    | error e => rw [h1] at h; simp only [] at h; exact absurd h (by simp)
    | ok items =>
      rw [h1] at h; simp only [] at h
      cases h2 : toIter items with
      | error e => rw [h2] at h; simp only [] at h; exact absurd h (by simp)
      | ok itemsL =>
        rw [h2] at h; simp only [] at h
        cases h3 : itemsL.mapM (fun it => dictGet it "id" PyVal.null) with
        | error e => rw [h3] at h; simp only [] at h; exact absurd h (by simp)
        | ok u =>
          rw [h3] at h; simp only [] at h
          injection h with h4
          exact h4.symm

end Atsumaru

/-- Counterexample to claim C7: the claim asserts `check_updated_urls`
never raises on a fetch failure and returns `([], [])` in that case.  But
in every plugin the fetch happens outside any `try` block, so a failing
fetch propagates its error instead of yielding `([], [])` — shown here for
Atsumaru and MangaFire. -/
theorem c7_fetch_failure_counterexample :
    Atsumaru.check_updated_urls (Except.error PyErr.connectionError) [] =
      Except.error PyErr.connectionError ∧
    MangaFire.check_updated_urls (Except.error PyErr.connectionError) [] =
      Except.error PyErr.connectionError :=
  ⟨rfl, rfl⟩

/-- Claim C7, amended: fetch failures propagate out of
`check_updated_urls` (Atsumaru and MangaFire alike); after a successful
fetch, Atsumaru catches every parse failure and returns `([], [])`, and on
any successfully parsed body returns either that safe pair or
`([], all previous urls)` — the uncorrelated-surface fallback — never
raising. -/
theorem c7_check_updated_amended :
    (∀ (e : PyErr) (last : List String),
      Atsumaru.check_updated_urls (Except.error e) last = Except.error e) ∧
    (∀ last : List String,
      Atsumaru.check_updated_urls (Except.ok Option.none) last = Except.ok ([], [])) ∧
    (∀ (body : PyVal) (last : List String),
      Atsumaru.check_updated_urls (Except.ok (Option.some body)) last = Except.ok ([], []) ∨
      Atsumaru.check_updated_urls (Except.ok (Option.some body)) last =
        Except.ok ([], last)) ∧
    (∀ (e : PyErr) (last : List String),
      MangaFire.check_updated_urls (Except.error e) last = Except.error e) := by
  refine ⟨fun e last => rfl, fun last => rfl, ?_, fun e last => rfl⟩
  intro body last
  cases h : Atsumaru.checkUpdatedTryBlock (Option.some body) last with
  | error e =>
    left
    show (match Atsumaru.checkUpdatedTryBlock (Option.some body) last with
          | Except.error _ => Except.ok ([], [])
          | Except.ok r => Except.ok r) = Except.ok ([], [])
    rw [h]
  | ok r =>
    right
    have hr := Atsumaru.tryBlock_ok h
    show (match Atsumaru.checkUpdatedTryBlock (Option.some body) last with
          | Except.error _ => Except.ok ([], [])
          | Except.ok r => Except.ok r) = Except.ok ([], last)
    rw [h, hr]

/-! ### Image decode fallback (C8) -/

/-- Claim C8: for every byte string that the image decoder fails to decode,
the descrambling step returns the original input bytes unchanged (the
`except` branch of `_descramble_image`), rather than raising or returning
no bytes. -/
theorem c8_decode_failure_fallback (decode : List Nat → Option MangaFire.DecodedImage)
    (encodeJpeg : MangaFire.DecodedImage → List Nat) (imageData : List Nat) (off : Int)
    (h : decode imageData = Option.none) :
    MangaFire.descrambleImage decode encodeJpeg imageData off = imageData := by
  unfold MangaFire.descrambleImage
  rw [h]

/-- Witness for C8: a decoder that rejects everything returns the input
bytes `[3, 1]` unchanged. -/
theorem c8_witness :
    (fun _ : List Nat => (Option.none : Option MangaFire.DecodedImage)) [3, 1] =
      Option.none ∧
    MangaFire.descrambleImage (fun _ => Option.none) (fun _ => []) [3, 1] 0 = [3, 1] :=
  ⟨rfl, c8_decode_failure_fallback (fun _ => Option.none) (fun _ => []) [3, 1] 0 rfl⟩

/-! ### URL membership tests (C9): string helper lemmas -/

lemma isPrefixOf_iff_exists (p s : List Char) :
    p.isPrefixOf s = true ↔ ∃ t, s = p ++ t := by
  induction p generalizing s with
  | nil => simp [List.isPrefixOf]
  | cons a as ih =>
    cases s with
    | nil => simp [List.isPrefixOf]
    | cons b bs =>
      simp only [List.isPrefixOf, Bool.and_eq_true, beq_iff_eq, ih]
      constructor
      · rintro ⟨rfl, t, rfl⟩
        exact ⟨t, rfl⟩
      · rintro ⟨t, h⟩
        injection h with h1 h2
        exact ⟨h1.symm, t, h2⟩

lemma isSuffixOf_iff_exists (p s : List Char) :
    p.isSuffixOf s = true ↔ ∃ pre, s = pre ++ p := by
  show p.reverse.isPrefixOf s.reverse = true ↔ _
  rw [isPrefixOf_iff_exists]
  constructor
  · rintro ⟨t, ht⟩
    refine ⟨t.reverse, ?_⟩
    have h2 := congrArg List.reverse ht
    simpa using h2
  · rintro ⟨pre, rfl⟩
    exact ⟨pre.reverse, by simp⟩

lemma hasSubstrCh_iff (p s : List Char) :
    hasSubstrCh p s = true ↔ ∃ pre post, s = pre ++ p ++ post := by
  induction s with
  | nil =>
    simp only [hasSubstrCh, List.isEmpty_iff]
    constructor
    · rintro rfl
      exact ⟨[], [], rfl⟩
    · rintro ⟨pre, post, h⟩
      rcases List.append_eq_nil.mp (List.append_eq_nil.mp h.symm).1 with ⟨_, hp⟩
      exact hp
  | cons c rest ih =>
    simp only [hasSubstrCh, Bool.or_eq_true, isPrefixOf_iff_exists, ih]
    constructor
    · rintro (⟨t, h⟩ | ⟨pre, post, h⟩)
      · exact ⟨[], t, by simp [h]⟩
      · exact ⟨c :: pre, post, by simp [h]⟩
    · rintro ⟨pre, post, h⟩
      cases pre with
      | nil =>
        left
        exact ⟨post, by simpa using h⟩
      | cons a as =>
        right
        injection h with h1 h2
        exact ⟨as, post, h2⟩

/-- Counterexample to claim C9: the claim asserts every plugin's
`contains_url` is a pure prefix test returning true iff the URL starts
with the site's base address.  MangaFire's is a substring test
(`"mangafire.to" in url`): it accepts a URL on a foreign host that merely
contains the domain, although that URL does not start with the MangaFire
base address. -/
theorem c9_substring_counterexample :
    MangaFire.contains_url "https://example.com/mangafire.to" = true ∧
    pyStartswith "https://example.com/mangafire.to" "https://mangafire.to" = false :=
  ⟨by decide, by decide⟩

/-- Claim C9, amended: `contains_url` is a pure string test with no network
call in every plugin; for Atsumaru and MangaKatana it is a prefix test
(against `https://atsu.moe/` and `https://mangakatana.com` respectively),
but for MangaFire it is a substring test for `mangafire.to`, which also
accepts URLs that do not start with the site's base address. -/
theorem c9_membership_amended :
    (∀ url : String, Atsumaru.contains_url url = true ↔
      ∃ t, url.toList = ("https://atsu.moe/").toList ++ t) ∧
    (∀ url : String, MangaKatana.contains_url url = true ↔
      ∃ t, url.toList = ("https://mangakatana.com").toList ++ t) ∧
    (∀ url : String, MangaFire.contains_url url = true ↔
      ∃ pre post, url.toList = pre ++ ("mangafire.to").toList ++ post) := by
  refine ⟨fun url => ?_, fun url => ?_, fun url => ?_⟩
  · exact isPrefixOf_iff_exists _ _
  · exact isPrefixOf_iff_exists _ _
  · exact hasSubstrCh_iff _ _

/-! ### Chapter label formatting (C10) -/

/-- Counterexample to claim C10: the claim asserts that when the
chapter-number field is empty the display label never ends with a bare
colon.  In `get_chapters` the cleanup removes only one trailing colon, so
the raw title `Foo::` (with an empty number) yields the label `Foo:`,
which ends with a colon. -/
theorem c10_trailing_colon_counterexample :
    MangaFire.getChaptersName [] ("Foo::".toList) = "Foo:".toList ∧
    List.isSuffixOf [':'] (MangaFire.getChaptersName [] ("Foo::".toList)) = true :=
  ⟨by decide, by decide⟩

/-- Claim C10, amended: when the chapter-number field is empty,
`iter_chapters` uses the raw title verbatim (no cleanup at all, so the
label ends with a colon whenever the title does), and `get_chapters`
collapses `"Chapter :"`, strips whitespace and removes at most one
trailing colon — its label is guaranteed not to end with a colon exactly
when the cleaned stripped title does not end with two colons. -/
theorem c10_label_amended :
    (∀ title : List Char, MangaFire.iterChaptersName [] title = title) ∧
    (∀ title : List Char,
      List.isSuffixOf [':', ':'] (stripChars (MangaFire.replaceChapterColon title)) = false →
      List.isSuffixOf [':'] (MangaFire.getChaptersName [] title) = false) := by
  constructor
  · intro title
    rfl
  · intro title hno
    unfold MangaFire.getChaptersName
    simp only [List.isEmpty_nil, if_true]
    set t := stripChars (MangaFire.replaceChapterColon title) with ht
    by_cases hs : List.isSuffixOf [':'] t = true
    · rw [if_pos hs]
      obtain ⟨u, hu⟩ := (isSuffixOf_iff_exists [':'] t).mp hs
      rw [hu]
      rw [List.dropLast_concat]
      by_contra hcon
      rw [Bool.not_eq_false] at hcon
      obtain ⟨v, hv⟩ := (isSuffixOf_iff_exists [':'] u).mp hcon
      have : List.isSuffixOf [':', ':'] t = true := by
        rw [(isSuffixOf_iff_exists [':', ':'] t)]
        exact ⟨v, by rw [hu, hv]; simp⟩
      rw [this] at hno
      exact absurd hno (by simp)
    · rw [if_neg hs]
      cases hb : List.isSuffixOf [':'] t with
      | false => rfl
      | true => exact absurd hb hs

/-- Witness for C10 on the title `Hi` with an empty number: the
`get_chapters` label does not end with a colon. -/
theorem c10_witness :
    List.isSuffixOf [':', ':']
      (stripChars (MangaFire.replaceChapterColon ("Hi".toList))) = false ∧
    List.isSuffixOf [':'] (MangaFire.getChaptersName [] ("Hi".toList)) = false :=
  ⟨by decide, c10_label_amended.2 ("Hi".toList) (by decide)⟩
